import Mathlib

/-!
Shallow embedding of the yaml-rust tree builder (`src/yaml.rs`) and proofs
about its data model, scalar resolution, indexing and event-driven
construction.

Conventions of the embedding:
* Rust `i64` is modelled as `Int` with explicit range checks at `2^63`
  where the source's parsing can overflow; `usize` is modelled as `Nat`
  (the `as i64` cast is made explicit).
* `Vec` push/pop stacks are modelled as Lean lists with the head as the
  top of the stack; the accumulated document list keeps source order.
* Code that can `panic!`/`unreachable!` is modelled in `Option`, with
  `none` standing for a crash.
* `f64` values are never computed with floating point: the source itself
  stores floats as their original text (`Node::Real`), and the only facts
  needed about `str::parse::<f64>` are which strings it accepts (a purely
  syntactic grammar) and which special tokens map to the infinities / NaN.
-/

/-- Marker from the scanner: a source position (offset, line, column). -/
structure Marker where
  index : Nat
  line : Nat
  col : Nat
deriving DecidableEq, Repr

/-- Scalar style from the scanner (`TScalarStyle`). -/
inductive TScalarStyle where
  | any
  | plain
  | singleQuoted
  | doubleQuoted
  | literal
  | folded
deriving DecidableEq, Repr

/-- The tag information carried by a `Scalar` event. The source matches
`Some(TokenType::Tag(handle, suffix))`; every other `TokenType` falls into
the untagged branch, which `nonTag` stands for. -/
inductive TagTok where
  | tag (handle : String) (sfx : String)
  | nonTag
deriving DecidableEq, Repr

mutual
/-- The `Node` enumeration of `src/yaml.rs` (variant order preserved:
Real, Integer, String, Boolean, Array, Hash, Alias, Null, BadValue). -/
inductive Node where
  | real (s : String)
  | integer (n : Int)
  | string (s : String)
  | boolean (b : Bool)
  | array (elems : List Yaml)
  | hash (entries : List HashEntry)
  | aliasRef (id : Nat)
  | null
  | badValue
deriving Repr

/-- The `Yaml` wrapper: `pub struct Yaml(pub Option<Marker>, pub Node)`. -/
inductive Yaml where
  | mk (marker : Option Marker) (node : Node)
deriving Repr

/-- One entry of the `LinkedHashMap<Node, HashItem>`: its key and item. -/
inductive HashEntry where
  | mk (key : Node) (item : HashItem)
deriving Repr

/-- The `HashItem` struct: `{ key_marker: Option<Marker>, value: Yaml }`. -/
inductive HashItem where
  | mk (key_marker : Option Marker) (value : Yaml)
deriving Repr
end

def Yaml.marker : Yaml → Option Marker
  | .mk m _ => m

def Yaml.node : Yaml → Node
  | .mk _ n => n

def HashEntry.key : HashEntry → Node
  | .mk k _ => k

def HashEntry.item : HashEntry → HashItem
  | .mk _ i => i

def HashItem.key_marker : HashItem → Option Marker
  | .mk m _ => m

def HashItem.value : HashItem → Yaml
  | .mk _ v => v

@[simp] theorem Yaml.node_mk (m : Option Marker) (n : Node) : (Yaml.mk m n).node = n := rfl

@[simp] theorem Yaml.marker_mk (m : Option Marker) (n : Node) : (Yaml.mk m n).marker = m := rfl

@[simp] theorem HashEntry.key_mk (k : Node) (i : HashItem) : (HashEntry.mk k i).key = k := rfl

@[simp] theorem HashEntry.item_mk (k : Node) (i : HashItem) : (HashEntry.mk k i).item = i := rfl

@[simp] theorem HashItem.key_marker_mk (m : Option Marker) (v : Yaml) :
    (HashItem.mk m v).key_marker = m := rfl

@[simp] theorem HashItem.value_mk (m : Option Marker) (v : Yaml) : (HashItem.mk m v).value = v := rfl

mutual
/-- Derived `PartialEq` of `Node`: structural, except that the nested
`Yaml` and `HashItem` comparisons use their hand-written impls, which
ignore markers. -/
def nodeEq : Node → Node → Bool
  | .real a, .real b => a == b
  | .integer a, .integer b => a == b
  | .string a, .string b => a == b
  | .boolean a, .boolean b => a == b
  | .array a, .array b => yamlListEq a b
  | .hash a, .hash b => entryListEq a b
  | .aliasRef a, .aliasRef b => a == b
  | .null, .null => true
  | .badValue, .badValue => true
  | _, _ => false
termination_by structural n => n

/-- Hand-written `PartialEq for Yaml`: `self.1 == other.1` (marker ignored). -/
def Yaml.eqB : Yaml → Yaml → Bool
  | .mk _ n1, .mk _ n2 => nodeEq n1 n2
termination_by structural y => y

/-- Equality of `Vec<Yaml>` (element-wise, with `Yaml`'s `PartialEq`). -/
def yamlListEq : List Yaml → List Yaml → Bool
  | [], [] => true
  | x :: xs, y :: ys => Yaml.eqB x y && yamlListEq xs ys
  | _, _ => false
termination_by structural l => l

/-- Hand-written `PartialEq for HashItem`: `self.value == other.value`
(the `key_marker` field is ignored, and the value's marker is ignored by
`Yaml`'s own eq). -/
def HashItem.eqB : HashItem → HashItem → Bool
  | .mk _ v1, .mk _ v2 => Yaml.eqB v1 v2
termination_by structural i => i

/-- Equality of one `(Node, HashItem)` map entry. -/
def entryEq : HashEntry → HashEntry → Bool
  | .mk k1 i1, .mk k2 i2 => nodeEq k1 k2 && HashItem.eqB i1 i2
termination_by structural e => e

/-- Equality of `LinkedHashMap<Node, HashItem>`: the entries compared
pairwise in iteration order. -/
def entryListEq : List HashEntry → List HashEntry → Bool
  | [], [] => true
  | x :: xs, y :: ys => entryEq x y && entryListEq xs ys
  | _, _ => false
termination_by structural l => l
end

/-- Total order on `Int` as Rust's `Ord for i64`. -/
def intCmp (a b : Int) : Ordering :=
  if a < b then .lt else if a = b then .eq else .gt

/-- Total order on `Nat` as Rust's `Ord for usize`. -/
def natCmp (a b : Nat) : Ordering :=
  if a < b then .lt else if a = b then .eq else .gt

/-- Rust's `Ord for bool`: `false < true`. -/
def boolCmp : Bool → Bool → Ordering
  | false, true => .lt
  | true, false => .gt
  | _, _ => .eq

/-- Character comparison by code point; on UTF-8 encoded strings this
agrees with Rust's byte-wise `Ord for String`. -/
def charCmp (a b : Char) : Ordering := natCmp a.toNat b.toNat

/-- Lexicographic comparison of character lists. -/
def charListCmp : List Char → List Char → Ordering
  | [], [] => .eq
  | [], _ :: _ => .lt
  | _ :: _, [] => .gt
  | a :: l1, b :: l2 =>
    match charCmp a b with
    | .eq => charListCmp l1 l2
    | o => o

/-- Rust's `Ord for String` (byte-wise lexicographic on UTF-8, which is
code-point lexicographic). -/
def strCmp (a b : String) : Ordering := charListCmp a.data b.data

/-- Discriminant rank of a `Node` variant, in declaration order (derived
`Ord` compares discriminants first). -/
def Node.rank : Node → Nat
  | .real _ => 0
  | .integer _ => 1
  | .string _ => 2
  | .boolean _ => 3
  | .array _ => 4
  | .hash _ => 5
  | .aliasRef _ => 6
  | .null => 7
  | .badValue => 8

mutual
/-- Derived `Ord` of `Node`: discriminant order, then fields; nested
`Yaml`/`HashItem` comparisons use their hand-written marker-ignoring impls. -/
def nodeCmp : Node → Node → Ordering
  | .real a, .real b => strCmp a b
  | .integer a, .integer b => intCmp a b
  | .string a, .string b => strCmp a b
  | .boolean a, .boolean b => boolCmp a b
  | .array a, .array b => yamlListCmp a b
  | .hash a, .hash b => entryListCmp a b
  | .aliasRef a, .aliasRef b => natCmp a b
  | .null, .null => .eq
  | .badValue, .badValue => .eq
  | a, b => natCmp a.rank b.rank
termination_by structural n => n

/-- Hand-written `Ord for Yaml`: `self.1.cmp(&other.1)` (marker ignored). -/
def Yaml.cmp : Yaml → Yaml → Ordering
  | .mk _ n1, .mk _ n2 => nodeCmp n1 n2
termination_by structural y => y

/-- Lexicographic comparison of `Vec<Yaml>`. -/
def yamlListCmp : List Yaml → List Yaml → Ordering
  | [], [] => .eq
  | [], _ :: _ => .lt
  | _ :: _, [] => .gt
  | x :: xs, y :: ys =>
    match Yaml.cmp x y with
    | .eq => yamlListCmp xs ys
    | o => o
termination_by structural l => l

/-- Hand-written `Ord for HashItem`: `self.value.cmp(&other.value)`. -/
def HashItem.cmp : HashItem → HashItem → Ordering
  | .mk _ v1, .mk _ v2 => Yaml.cmp v1 v2
termination_by structural i => i

/-- Comparison of one `(Node, HashItem)` entry (pair order: key first). -/
def entryCmp : HashEntry → HashEntry → Ordering
  | .mk k1 i1, .mk k2 i2 =>
    match nodeCmp k1 k2 with
    | .eq => HashItem.cmp i1 i2
    | o => o
termination_by structural e => e

/-- Comparison of `LinkedHashMap<Node, HashItem>`: entries in iteration
order, lexicographically. -/
def entryListCmp : List HashEntry → List HashEntry → Ordering
  | [], [] => .eq
  | [], _ :: _ => .lt
  | _ :: _, [] => .gt
  | x :: xs, y :: ys =>
    match entryCmp x y with
    | .eq => entryListCmp xs ys
    | o => o
termination_by structural l => l
end

/-- Hand-written `Hash for Yaml`: it forwards the wrapped `Node` to the
hasher (`self.1.hash(state)`); `f` stands for the hasher's behaviour on
`Node`. -/
def Yaml.hashWith {α : Type} (f : Node → α) (y : Yaml) : α := f y.node

/-- Hand-written `Hash for HashItem`: `self.value.hash(state)`. -/
def HashItem.hashWith {α : Type} (f : Node → α) (i : HashItem) : α := Yaml.hashWith f i.value

/-- Prefix test on character lists (first argument: the candidate
prefix). -/
def listPre : List Char → List Char → Bool
  | [], _ => true
  | _ :: _, [] => false
  | c :: cs, d :: ds => c == d && listPre cs ds

/-- Rust's `str::starts_with(p)`. -/
def strStarts (s p : String) : Bool := listPre p.data s.data

/-- Value of one digit character as in Rust's `char::to_digit`:
`0`-`9`, then letters `a`-`z` / `A`-`Z` for values 10 and above. -/
def digitVal (c : Char) : Option Nat :=
  if c.isDigit then some (c.toNat - 48)
  else if 'a' ≤ c && c ≤ 'z' then some (c.toNat - 97 + 10)
  else if 'A' ≤ c && c ≤ 'Z' then some (c.toNat - 65 + 10)
  else none

/-- Accumulate a digit string in the given radix; `none` if any character
is not a digit of that radix. -/
def digitsVal (radix : Nat) (cs : List Char) : Option Nat :=
  cs.foldl
    (fun acc c =>
      match acc, digitVal c with
      | some a, some d => if d < radix then some (a * radix + d) else none
      | _, _ => none)
    (some 0)

/-- Rust's `i64::from_str_radix` (and, at radix 10, `str::parse::<i64>`):
an optional sign, then one or more digits of the radix, with the result
required to fit in the signed 64-bit range; overflow is an error. -/
def fromStrRadix (radix : Nat) (s : String) : Option Int :=
  let (neg, ds) :=
    match s.data with
    | '+' :: rest => (false, rest)
    | '-' :: rest => (true, rest)
    | cs => (false, cs)
  if ds.isEmpty then none
  else
    match digitsVal radix ds with
    | none => none
    | some n =>
      if neg then
        if n ≤ 2 ^ 63 then some (-(n : Int)) else none
      else
        if n < 2 ^ 63 then some (n : Int) else none

/-- Rust's `str::parse::<bool>`: exactly `true` or `false`. -/
def parseBool (s : String) : Option Bool :=
  if s = "true" then some true
  else if s = "false" then some false
  else none

/-- Strip one optional leading sign character. -/
def stripSign : List Char → List Char
  | '+' :: r => r
  | '-' :: r => r
  | cs => cs

/-- Exponent part of the float grammar: empty, or `e`/`E`, an optional
sign, and one or more digits. -/
def expPartOk : List Char → Bool
  | [] => true
  | c :: r =>
    (c = 'e' || c = 'E') &&
      (let r2 := stripSign r
       !r2.isEmpty && r2.all (·.isDigit))

/-- Mantissa of the float grammar: `Digit+`, `Digit+ . Digit*` or
`Digit* . Digit+`. Returns whether a mantissa was consumed and the
remaining characters. -/
def mantissaSplit (cs : List Char) : Bool × List Char :=
  let (d1, r1) := cs.span (·.isDigit)
  match r1 with
  | '.' :: r2 =>
    let (d2, r3) := r2.span (·.isDigit)
    (!(d1.isEmpty && d2.isEmpty), r3)
  | _ => (!d1.isEmpty, r1)

/-- Acceptance grammar of Rust's `str::parse::<f64>` (the documented
`FromStr for f64` grammar of the crate's era):
`Sign? ( inf | NaN | Number )` with
`Number ::= (Digit+ | Digit+ . Digit* | Digit* . Digit+) Exp?`.
Acceptance is purely syntactic - out-of-range magnitudes round to an
infinity or zero rather than failing. -/
def f64Accepts (s : String) : Bool :=
  let cs := stripSign s.data
  cs == ['i', 'n', 'f'] || cs == ['N', 'a', 'N'] ||
    (let p := mantissaSplit cs
     p.1 && expPartOk p.2)

/-- Result of parsing an `f64`, represented without floating point:
the two infinities, NaN, and `parsed src` for the value that the
standard decimal parse produces from the accepted text `src`. -/
inductive F64 where
  | posInf
  | negInf
  | nan
  | parsed (src : String)
deriving DecidableEq, Repr

/-- The `parse_f64` function of `src/yaml.rs`: Core-schema float parsing.
Fixed spellings of `.inf` / `-.inf` / `.nan` (plus `NaN`) map to the
special values; everything else falls through to `v.parse::<f64>()`. -/
def parse_f64 (v : String) : Option F64 :=
  if v = ".inf" || v = ".Inf" || v = ".INF" || v = "+.inf" || v = "+.Inf" || v = "+.INF" then
    some .posInf
  else if v = "-.inf" || v = "-.Inf" || v = "-.INF" then
    some .negInf
  else if v = ".nan" || v = "NaN" || v = ".NAN" then
    some .nan
  else if f64Accepts v then some (.parsed v) else none

/-- The `Node::from_str` scalar-inference function of `src/yaml.rs`,
with the source's exact control flow: the `0x` check, the `0o` check,
the leading-`+` check, then the final `match`. -/
def Node.from_str (v : String) : Node :=
  match (if strStarts v "0x" then fromStrRadix 16 (v.drop 2) else none) with
  | some n => .integer n
  | none =>
    match (if strStarts v "0o" then fromStrRadix 8 (v.drop 2) else none) with
    | some n => .integer n
    | none =>
      match (if strStarts v "+" then fromStrRadix 10 (v.drop 1) else none) with
      | some n => .integer n
      | none =>
        if v = "~" || v = "null" then .null
        else if v = "true" then .boolean true
        else if v = "false" then .boolean false
        else
          match fromStrRadix 10 v with
          | some n => .integer n
          | none => if (parse_f64 v).isSome then .real v else .string v

/-- The `Node::as_f64` accessor: lazily parse the stored float text. -/
def Node.as_f64 : Node → Option F64
  | .real v => parse_f64 v
  | _ => none

/-- The `Node::is_badvalue` predicate. -/
def Node.is_badvalue : Node → Bool
  | .badValue => true
  | _ => false

/-- The `Node::as_hash` accessor. -/
def Node.as_hash : Node → Option (List HashEntry)
  | .hash h => some h
  | _ => none

/-- The `Node::as_vec` accessor. -/
def Node.as_vec : Node → Option (List Yaml)
  | .array a => some a
  | _ => none

/-- The scalar-resolution expression of the `Event::Scalar` arm of
`YamlLoader::on_event`: non-plain styles are always strings; a `!!` tag
with a core-schema suffix parses strictly (failure gives `BadValue`);
any other tag gives a string; no usable tag defers to `Node::from_str`. -/
def scalarNode (v : String) (style : TScalarStyle) (tag : Option TagTok) : Node :=
  if style ≠ TScalarStyle.plain then .string v
  else
    match tag with
    | some (.tag handle sfx) =>
      if handle = "!!" then
        match sfx with
        | "bool" =>
          match parseBool v with
          | none => .badValue
          | some b => .boolean b
        | "int" =>
          match fromStrRadix 10 v with
          | none => .badValue
          | some n => .integer n
        | "float" =>
          match parse_f64 v with
          | some _ => .real v
          | none => .badValue
        | "null" =>
          if v = "~" || v = "null" then .null else .badValue
        | _ => .string v
      else .string v
    | _ => Node.from_str v

/-- The static `BAD_VALUE` sentinel: `Yaml(None, Node::BadValue)`. -/
def BAD_VALUE : Yaml := .mk none .badValue

/-- Lookup in `LinkedHashMap<Node, HashItem>` (`get`): the item of the
first (and, by map uniqueness, only) entry whose key equals the probe
under `Node`'s `PartialEq`. -/
def lhmGet (entries : List HashEntry) (k : Node) : Option HashItem :=
  (entries.find? (fun e => nodeEq e.key k)).map HashEntry.item

/-- Insertion into `LinkedHashMap<Node, HashItem>`. Modelled from the
linked-hash-map crate (an external dependency, not part of this
repository): if an entry with an equal key exists, its value is replaced
with the new one and the entry is detached and re-attached at the back of
the iteration order, keeping the originally stored key; otherwise the new
entry is appended at the back. -/
def lhmInsert (entries : List HashEntry) (k : Node) (item : HashItem) : List HashEntry :=
  match entries.find? (fun e => nodeEq e.key k) with
  | some e0 => (entries.filter (fun e => !nodeEq e.key k)) ++ [.mk e0.key item]
  | none => entries ++ [.mk k item]

/-- The Rust cast `usize as i64` (two's-complement wrap at 64 bits). -/
def usizeToI64 (n : Nat) : Int :=
  let m : Nat := n % 2 ^ 64
  if m < 2 ^ 63 then (m : Int) else (m : Int) - 2 ^ 64

/-- The `Index<&str> for Node` impl: a string index looks up a
`Node::String` key in a `Hash` receiver; every miss and every non-`Hash`
receiver yields the shared `BAD_VALUE` sentinel. -/
def Node.indexStr (n : Node) (idx : String) : Yaml :=
  match n.as_hash with
  | some h =>
    match lhmGet h (.string idx) with
    | some it => it.value
    | none => BAD_VALUE
  | none => BAD_VALUE

/-- The `Index<usize> for Node` impl: position access on an `Array`
receiver, `Node::Integer`-key lookup on a `Hash` receiver (through the
`usize as i64` cast), and `BAD_VALUE` in every other case. -/
def Node.indexNat (n : Node) (idx : Nat) : Yaml :=
  match n.as_vec with
  | some v => (v.get? idx).getD BAD_VALUE
  | none =>
    match n.as_hash with
    | some h =>
      match lhmGet h (.integer (usizeToI64 idx)) with
      | some it => it.value
      | none => BAD_VALUE
    | none => BAD_VALUE

/-- One step of a chained indexing expression such as `doc["a"][0]`:
either a string key or a positional key. -/
inductive PathKey where
  | strK (s : String)
  | natK (n : Nat)
deriving DecidableEq, Repr

/-- Apply one indexing step to an annotated value (Rust auto-derefs the
`Yaml` wrapper to its `Node` before applying `Index`). -/
def Yaml.indexKey (y : Yaml) : PathKey → Yaml
  | .strK s => y.node.indexStr s
  | .natK n => y.node.indexNat n

/-- Chained indexing along a whole path of keys. -/
def Yaml.indexPath : Yaml → List PathKey → Yaml
  | y, [] => y
  | y, k :: ks => (y.indexKey k).indexPath ks

/-- Events consumed by the tree builder (`parser::Event`); `nothing`,
`streamStart` and `streamEnd` are the kinds its `match` ignores. -/
inductive Event where
  | nothing
  | streamStart
  | streamEnd
  | documentStart
  | documentEnd
  | alias (id : Nat)
  | scalar (value : String) (style : TScalarStyle) (aid : Nat) (tag : Option TagTok)
  | sequenceStart (aid : Nat)
  | sequenceEnd
  | mappingStart (aid : Nat)
  | mappingEnd
deriving DecidableEq, Repr

/-- The mutable state of `YamlLoader`: finished documents, the open-node
stack (with each node's anchor id), the pending-key stack, and the anchor
table (`BTreeMap<usize, Yaml>`, modelled as an association list with
replace-on-insert). The head of a list models the top of a `Vec` stack. -/
structure LoaderState where
  docs : List Yaml
  doc_stack : List (Yaml × Nat)
  key_stack : List Yaml
  anchor_map : List (Nat × Yaml)
deriving Repr

/-- Insertion into the anchor table (`BTreeMap::insert`): the binding for
an existing id is replaced. -/
def anchorInsert (m : List (Nat × Yaml)) (k : Nat) (v : Yaml) : List (Nat × Yaml) :=
  match m with
  | [] => [(k, v)]
  | (k0, v0) :: rest => if k0 = k then (k, v) :: rest else (k0, v0) :: anchorInsert rest k v

/-- Lookup in the anchor table (`BTreeMap::get`). -/
def anchorGet (m : List (Nat × Yaml)) (k : Nat) : Option Yaml :=
  (m.find? (fun e => e.1 == k)).map (·.2)

/-- The `YamlLoader::insert_new_node` method. `none` models the
`unreachable!()` / `unwrap()` panics on malformed event streams. -/
def YamlLoader.insert_new_node (st : LoaderState) (node : Yaml × Nat) : Option LoaderState :=
  let st1 :=
    if node.2 > 0 then { st with anchor_map := anchorInsert st.anchor_map node.2 node.1 }
    else st
  match st1.doc_stack with
  | [] => some { st1 with doc_stack := [node] }
  | (.mk pm (.array elems), paid) :: rest =>
    some { st1 with doc_stack := (.mk pm (.array (elems ++ [node.1])), paid) :: rest }
  | (.mk pm (.hash entries), paid) :: rest =>
    match st1.key_stack with
    | [] => none
    | curKey :: krest =>
      if curKey.node.is_badvalue then
        some { st1 with key_stack := node.1 :: krest }
      else
        some { st1 with
                key_stack := Yaml.mk none .badValue :: krest,
                doc_stack :=
                  (.mk pm (.hash (lhmInsert entries curKey.node (.mk none node.1))), paid) :: rest }
  | _ => none

/-- The `YamlLoader::on_event` method, one transition of the builder. -/
def YamlLoader.on_event (st : LoaderState) (ev : Event) (mark : Marker) : Option LoaderState :=
  match ev with
  | .documentStart => some st
  | .documentEnd =>
    match st.doc_stack with
    | [] => some { st with docs := st.docs ++ [Yaml.mk none .badValue] }
    | [top] => some { st with docs := st.docs ++ [top.1], doc_stack := [] }
    | _ => none
  | .sequenceStart aid =>
    some { st with doc_stack := (Yaml.mk (some mark) (.array []), aid) :: st.doc_stack }
  | .sequenceEnd =>
    match st.doc_stack with
    | [] => none
    | top :: rest => YamlLoader.insert_new_node { st with doc_stack := rest } top
  | .mappingStart aid =>
    some { st with
            doc_stack := (Yaml.mk (some mark) (.hash []), aid) :: st.doc_stack,
            key_stack := Yaml.mk (some mark) .badValue :: st.key_stack }
  | .mappingEnd =>
    match st.key_stack with
    | [] => none
    | _ :: krest =>
      match st.doc_stack with
      | [] => none
      | top :: rest =>
        YamlLoader.insert_new_node { st with key_stack := krest, doc_stack := rest } top
  | .scalar v style aid tag =>
    YamlLoader.insert_new_node st (Yaml.mk (some mark) (scalarNode v style tag), aid)
  | .alias id =>
    YamlLoader.insert_new_node st ((anchorGet st.anchor_map id).getD (Yaml.mk (some mark) .badValue), 0)
  | _ => some st

/-- Feed a list of marked events to the builder, stopping at a panic. -/
def runEvents : LoaderState → List (Event × Marker) → Option LoaderState
  | st, [] => some st
  | st, (ev, m) :: rest =>
    match YamlLoader.on_event st ev m with
    | none => none
    | some st2 => runEvents st2 rest

/-- The freshly initialised loader of `YamlLoader::load_from_str`. -/
def initState : LoaderState := ⟨[], [], [], []⟩

/-- The documents produced by a whole run of the builder. -/
def loadDocs (evs : List (Event × Marker)) : Option (List Yaml) :=
  (runEvents initState evs).map LoaderState.docs

mutual
theorem nodeEq_refl : (n : Node) → nodeEq n n = true
  | .real s => by simp [nodeEq]
  | .integer i => by simp [nodeEq]
  | .string s => by simp [nodeEq]
  | .boolean b => by simp [nodeEq]
  | .array l => by simpa [nodeEq] using yamlListEq_refl l
  | .hash l => by simpa [nodeEq] using entryListEq_refl l
  | .aliasRef i => by simp [nodeEq]
  | .null => by simp [nodeEq]
  | .badValue => by simp [nodeEq]
termination_by structural n => n

theorem yamlEqB_refl : (y : Yaml) → Yaml.eqB y y = true
  | .mk m n => by simpa [Yaml.eqB] using nodeEq_refl n
termination_by structural y => y

theorem yamlListEq_refl : (l : List Yaml) → yamlListEq l l = true
  | [] => by simp [yamlListEq]
  | x :: xs => by simp [yamlListEq, yamlEqB_refl x, yamlListEq_refl xs]
termination_by structural l => l

theorem hashItemEqB_refl : (i : HashItem) → HashItem.eqB i i = true
  | .mk m v => by simpa [HashItem.eqB] using yamlEqB_refl v
termination_by structural i => i

theorem entryEq_refl : (e : HashEntry) → entryEq e e = true
  | .mk k i => by simp [entryEq, nodeEq_refl k, hashItemEqB_refl i]
termination_by structural e => e

theorem entryListEq_refl : (l : List HashEntry) → entryListEq l l = true
  | [] => by simp [entryListEq]
  | x :: xs => by simp [entryListEq, entryEq_refl x, entryListEq_refl xs]
termination_by structural l => l
end

theorem strCmp_refl (s : String) : strCmp s s = .eq := by
  unfold strCmp
  induction s.data with
  | nil => simp [charListCmp]
  | cons c l ih => simp [charListCmp, charCmp, natCmp, ih]

mutual
theorem nodeCmp_refl : (n : Node) → nodeCmp n n = .eq
  | .real s => by simp [nodeCmp, strCmp_refl]
  | .integer i => by simp [nodeCmp, intCmp]
  | .string s => by simp [nodeCmp, strCmp_refl]
  | .boolean b => by cases b <;> simp [nodeCmp, boolCmp]
  | .array l => by simpa [nodeCmp] using yamlListCmp_refl l
  | .hash l => by simpa [nodeCmp] using entryListCmp_refl l
  | .aliasRef i => by simp [nodeCmp, natCmp]
  | .null => by simp [nodeCmp]
  | .badValue => by simp [nodeCmp]
termination_by structural n => n

theorem yamlCmp_refl : (y : Yaml) → Yaml.cmp y y = .eq
  | .mk m n => by simpa [Yaml.cmp] using nodeCmp_refl n
termination_by structural y => y

theorem yamlListCmp_refl : (l : List Yaml) → yamlListCmp l l = .eq
  | [] => by simp [yamlListCmp]
  | x :: xs => by simp [yamlListCmp, yamlCmp_refl x, yamlListCmp_refl xs]
termination_by structural l => l

theorem hashItemCmp_refl : (i : HashItem) → HashItem.cmp i i = .eq
  | .mk m v => by simpa [HashItem.cmp] using yamlCmp_refl v
termination_by structural i => i

theorem entryCmp_refl : (e : HashEntry) → entryCmp e e = .eq
  | .mk k i => by simp [entryCmp, nodeCmp_refl k, hashItemCmp_refl i]
termination_by structural e => e

theorem entryListCmp_refl : (l : List HashEntry) → entryListCmp l l = .eq
  | [] => by simp [entryListCmp]
  | x :: xs => by simp [entryListCmp, entryCmp_refl x, entryListCmp_refl xs]
termination_by structural l => l
end

mutual
theorem nodeEq_trans : (a b c : Node) → nodeEq a b = true → nodeEq b c = true → nodeEq a c = true
  | .real s, b, c, h1, h2 => by cases b <;> cases c <;> simp_all [nodeEq]
  | .integer i, b, c, h1, h2 => by cases b <;> cases c <;> simp_all [nodeEq]
  | .string s, b, c, h1, h2 => by cases b <;> cases c <;> simp_all [nodeEq]
  | .boolean x, b, c, h1, h2 => by cases b <;> cases c <;> simp_all [nodeEq]
  | .aliasRef i, b, c, h1, h2 => by cases b <;> cases c <;> simp_all [nodeEq]
  | .null, b, c, h1, h2 => by cases b <;> cases c <;> simp_all [nodeEq]
  | .badValue, b, c, h1, h2 => by cases b <;> cases c <;> simp_all [nodeEq]
  | .array xs, b, c, h1, h2 => by
    cases b <;> simp [nodeEq] at h1
    cases c <;> simp [nodeEq] at h2
    simp only [nodeEq]
    exact yamlListEq_trans xs _ _ h1 h2
  | .hash xs, b, c, h1, h2 => by
    cases b <;> simp [nodeEq] at h1
    cases c <;> simp [nodeEq] at h2
    simp only [nodeEq]
    exact entryListEq_trans xs _ _ h1 h2
termination_by structural a => a

theorem yamlEqB_trans : (a b c : Yaml) → Yaml.eqB a b = true → Yaml.eqB b c = true → Yaml.eqB a c = true
  | .mk _ n1, .mk _ n2, .mk _ n3, h1, h2 => by
    simp only [Yaml.eqB] at h1 h2 ⊢
    exact nodeEq_trans n1 n2 n3 h1 h2
termination_by structural a => a

theorem yamlListEq_trans :
    (a b c : List Yaml) → yamlListEq a b = true → yamlListEq b c = true → yamlListEq a c = true
  | [], b, c, h1, h2 => by cases b <;> cases c <;> simp_all [yamlListEq]
  | x :: xs, b, c, h1, h2 => by
    cases b with
    | nil => simp [yamlListEq] at h1
    | cons y ys =>
      cases c with
      | nil => simp [yamlListEq] at h2
      | cons z zs =>
        simp only [yamlListEq, Bool.and_eq_true] at h1 h2 ⊢
        exact ⟨yamlEqB_trans x y z h1.1 h2.1, yamlListEq_trans xs ys zs h1.2 h2.2⟩
termination_by structural a => a

theorem hashItemEqB_trans :
    (a b c : HashItem) → HashItem.eqB a b = true → HashItem.eqB b c = true → HashItem.eqB a c = true
  | .mk _ v1, .mk _ v2, .mk _ v3, h1, h2 => by
    simp only [HashItem.eqB] at h1 h2 ⊢
    exact yamlEqB_trans v1 v2 v3 h1 h2
termination_by structural a => a

theorem entryEq_trans :
    (a b c : HashEntry) → entryEq a b = true → entryEq b c = true → entryEq a c = true
  | .mk k1 i1, .mk k2 i2, .mk k3 i3, h1, h2 => by
    simp only [entryEq, Bool.and_eq_true] at h1 h2 ⊢
    exact ⟨nodeEq_trans k1 k2 k3 h1.1 h2.1, hashItemEqB_trans i1 i2 i3 h1.2 h2.2⟩
termination_by structural a => a

theorem entryListEq_trans :
    (a b c : List HashEntry) → entryListEq a b = true → entryListEq b c = true → entryListEq a c = true
  | [], b, c, h1, h2 => by cases b <;> cases c <;> simp_all [entryListEq]
  | x :: xs, b, c, h1, h2 => by
    cases b with
    | nil => simp [entryListEq] at h1
    | cons y ys =>
      cases c with
      | nil => simp [entryListEq] at h2
      | cons z zs =>
        simp only [entryListEq, Bool.and_eq_true] at h1 h2 ⊢
        exact ⟨entryEq_trans x y z h1.1 h2.1, entryListEq_trans xs ys zs h1.2 h2.2⟩
termination_by structural a => a
end

/-- One tier of the specified plain-scalar inference chain: hexadecimal
literal with a `0x` prefix, parsed in base 16. -/
def tierHex (v : String) : Option Node :=
  if strStarts v "0x" then (fromStrRadix 16 (v.drop 2)).map .integer else none

/-- Octal tier: `0o` prefix, base 8. -/
def tierOct (v : String) : Option Node :=
  if strStarts v "0o" then (fromStrRadix 8 (v.drop 2)).map .integer else none

/-- Explicitly-signed-positive decimal tier: leading `+`. -/
def tierPlusInt (v : String) : Option Node :=
  if strStarts v "+" then (fromStrRadix 10 (v.drop 1)).map .integer else none

/-- Null-spelling tier: exactly `~` or `null`. -/
def tierNull (v : String) : Option Node :=
  if v = "~" || v = "null" then some .null else none

/-- Boolean-spelling tier: exactly `true` or `false`. -/
def tierBool (v : String) : Option Node :=
  if v = "true" then some (.boolean true)
  else if v = "false" then some (.boolean false)
  else none

/-- Decimal 64-bit integer tier. -/
def tierDecInt (v : String) : Option Node :=
  (fromStrRadix 10 v).map .integer

/-- Core-schema float tier. -/
def tierFloat (v : String) : Option Node :=
  if (parse_f64 v).isSome then some (.real v) else none

/-- First tier that succeeds, in list order. -/
def firstHit : List (String → Option Node) → String → Option Node
  | [], _ => none
  | t :: ts, v =>
    match t v with
    | some n => some n
    | none => firstHit ts v

/-- Plain-scalar inference exactly as the specification words it: the
fixed priority chain hex, octal, signed-positive decimal, null spellings,
boolean spellings, decimal integer, Core-schema float, and `String` as
the universal fallback. -/
def resolvePriority (v : String) : Node :=
  (firstHit [tierHex, tierOct, tierPlusInt, tierNull, tierBool, tierDecInt, tierFloat] v).getD
    (.string v)

/-- C1: plain untagged scalar resolution follows exactly the specified
priority order (hex `0x`, octal `0o`, leading `+` decimal, null
spellings, boolean spellings, decimal integer, Core-schema float, then
String); overflow of the 64-bit range merely falls through to a later
tier, and the result is never `BadValue`. -/
theorem c1_plain_priority_order :
    (∀ v : String, Node.from_str v = resolvePriority v)
  ∧ (∀ v : String, Node.from_str v ≠ .badValue)
  ∧ Node.from_str "0xFF" = .integer 255
  ∧ Node.from_str "0o77" = .integer 63
  ∧ Node.from_str "+12345" = .integer 12345
  ∧ Node.from_str "9223372036854775807" = .integer 9223372036854775807
  ∧ Node.from_str "9223372036854775808" = .real "9223372036854775808"
  ∧ Node.from_str "0x8000000000000000" = .string "0x8000000000000000" := by
  refine ⟨?_, ?_, rfl, rfl, rfl, rfl, rfl, rfl⟩
  · intro v
    simp only [Node.from_str, resolvePriority, firstHit, tierHex, tierOct, tierPlusInt, tierNull,
      tierBool, tierDecInt, tierFloat, Option.getD]
    repeat' split
    all_goals first | rfl | simp_all
  · intro v
    simp only [Node.from_str]
    repeat' split
    all_goals simp

/-- C2: an explicit tag of the reserved `!!` family with suffix `bool`,
`int`, `float` or `null` parses the plain scalar strictly, producing
`BadValue` (never a String) on parse failure; any other suffix of that
family, and any other handle, resolves to the raw text as a String. -/
theorem c2_explicit_tag_strict :
    (∀ (v : String) (b : Bool),
        parseBool v = some b → scalarNode v .plain (some (.tag "!!" "bool")) = .boolean b)
  ∧ (∀ v : String, parseBool v = none → scalarNode v .plain (some (.tag "!!" "bool")) = .badValue)
  ∧ (∀ (v : String) (n : Int),
        fromStrRadix 10 v = some n → scalarNode v .plain (some (.tag "!!" "int")) = .integer n)
  ∧ (∀ v : String, fromStrRadix 10 v = none → scalarNode v .plain (some (.tag "!!" "int")) = .badValue)
  ∧ (∀ (v : String) (f : F64),
        parse_f64 v = some f → scalarNode v .plain (some (.tag "!!" "float")) = .real v)
  ∧ (∀ v : String, parse_f64 v = none → scalarNode v .plain (some (.tag "!!" "float")) = .badValue)
  ∧ (∀ v : String, v = "~" ∨ v = "null" → scalarNode v .plain (some (.tag "!!" "null")) = .null)
  ∧ (∀ v : String, v ≠ "~" → v ≠ "null" → scalarNode v .plain (some (.tag "!!" "null")) = .badValue)
  ∧ (∀ (v sfx : String), sfx ≠ "bool" → sfx ≠ "int" → sfx ≠ "float" → sfx ≠ "null" →
        scalarNode v .plain (some (.tag "!!" sfx)) = .string v)
  ∧ (∀ (v handle sfx : String), handle ≠ "!!" →
        scalarNode v .plain (some (.tag handle sfx)) = .string v) := by
  refine ⟨?_, ?_, ?_, ?_, ?_, ?_, ?_, ?_, ?_, ?_⟩
  · intro v b h; simp [scalarNode, h]
  · intro v h; simp [scalarNode, h]
  · intro v n h; simp [scalarNode, h]
  · intro v h; simp [scalarNode, h]
  · intro v f h; simp [scalarNode, h]
  · intro v h; simp [scalarNode, h]
  · intro v h; rcases h with h | h <;> simp [scalarNode, h]
  · intro v h1 h2; simp [scalarNode, h1, h2]
  · intro v sfx h1 h2 h3 h4
    simp only [scalarNode]
    repeat' split
    all_goals simp_all
  · intro v handle sfx h
    simp [scalarNode, h]

/-- C2 witness: concrete instantiations of every strict-tag case. -/
theorem c2_explicit_tag_strict_witness :
    scalarNode "true" .plain (some (.tag "!!" "bool")) = .boolean true
  ∧ scalarNode "null" .plain (some (.tag "!!" "bool")) = .badValue
  ∧ scalarNode "100" .plain (some (.tag "!!" "int")) = .integer 100
  ∧ scalarNode "string" .plain (some (.tag "!!" "int")) = .badValue
  ∧ scalarNode "2" .plain (some (.tag "!!" "float")) = .real "2"
  ∧ scalarNode "string" .plain (some (.tag "!!" "float")) = .badValue
  ∧ scalarNode "~" .plain (some (.tag "!!" "null")) = .null
  ∧ scalarNode "val" .plain (some (.tag "!!" "null")) = .badValue
  ∧ scalarNode "0" .plain (some (.tag "!!" "str")) = .string "0"
  ∧ scalarNode "7" .plain (some (.tag "!" "int")) = .string "7" :=
  ⟨c2_explicit_tag_strict.1 "true" true rfl,
   c2_explicit_tag_strict.2.1 "null" rfl,
   c2_explicit_tag_strict.2.2.1 "100" 100 rfl,
   c2_explicit_tag_strict.2.2.2.1 "string" rfl,
   c2_explicit_tag_strict.2.2.2.2.1 "2" (.parsed "2") rfl,
   c2_explicit_tag_strict.2.2.2.2.2.1 "string" rfl,
   c2_explicit_tag_strict.2.2.2.2.2.2.1 "~" (Or.inl rfl),
   c2_explicit_tag_strict.2.2.2.2.2.2.2.1 "val" (by decide) (by decide),
   c2_explicit_tag_strict.2.2.2.2.2.2.2.2.1 "0" "str" (by decide) (by decide) (by decide) (by decide),
   c2_explicit_tag_strict.2.2.2.2.2.2.2.2.2 "7" "!" "int" (by decide)⟩

/-- C5: a scalar event of any non-plain style resolves to the raw text
as a String, whatever the text and whatever the tag; the plain scalar
`0` infers to Integer 0 while a quoted `0` stays the String `0`. -/
theorem c5_nonplain_is_string :
    (∀ (v : String) (style : TScalarStyle) (tag : Option TagTok),
        style ≠ .plain → scalarNode v style tag = .string v)
  ∧ scalarNode "0" .plain none = .integer 0
  ∧ scalarNode "0" .singleQuoted none = .string "0"
  ∧ scalarNode "0" .doubleQuoted none = .string "0"
  ∧ scalarNode "0" .doubleQuoted (some (.tag "!!" "int")) = .string "0" := by
  refine ⟨?_, rfl, rfl, rfl, rfl⟩
  intro v style tag h
  simp [scalarNode, h]

/-- C5 witness: the general non-plain case applied at a block-literal
scalar whose text would otherwise infer to an integer. -/
theorem c5_nonplain_is_string_witness :
    scalarNode "123" .literal (some (.tag "!!" "int")) = .string "123" :=
  c5_nonplain_is_string.1 "123" .literal (some (.tag "!!" "int")) (by decide)

/-- C9 counterexample: `.Nan` is a capitalization variant of the special
token `.nan`, yet `parse_f64` does not map it to NaN - it is not one of
the three hard-coded spellings and the decimal grammar rejects it, so the
result is absence rather than NaN. -/
theorem c9_case_counterexample : parse_f64 ".Nan" = none := rfl

/-- The special float spellings that `parse_f64` matches literally. -/
def specialFloatTokens : List String :=
  [".inf", ".Inf", ".INF", "+.inf", "+.Inf", "+.INF", "-.inf", "-.Inf", "-.INF",
   ".nan", "NaN", ".NAN"]

/-- C9 (amended): `parse_f64` maps exactly the fixed spellings `.inf` /
`.Inf` / `.INF` (optionally `+`-signed) to positive infinity, `-.inf` /
`-.Inf` / `-.INF` to negative infinity, and `.nan` / `.NAN` / `NaN` to
NaN - not every capitalization variant (`.Nan`, `.iNf` yield absence);
all other text goes to the standard decimal parse, and text accepted by
nothing yields absence. -/
theorem c9_special_tokens_amended :
    parse_f64 ".inf" = some .posInf
  ∧ parse_f64 ".Inf" = some .posInf
  ∧ parse_f64 ".INF" = some .posInf
  ∧ parse_f64 "+.inf" = some .posInf
  ∧ parse_f64 "+.Inf" = some .posInf
  ∧ parse_f64 "+.INF" = some .posInf
  ∧ parse_f64 "-.inf" = some .negInf
  ∧ parse_f64 "-.Inf" = some .negInf
  ∧ parse_f64 "-.INF" = some .negInf
  ∧ parse_f64 ".nan" = some .nan
  ∧ parse_f64 ".NAN" = some .nan
  ∧ parse_f64 "NaN" = some .nan
  ∧ parse_f64 ".Nan" = none
  ∧ parse_f64 ".iNf" = none
  ∧ (∀ v : String, v ∉ specialFloatTokens →
        parse_f64 v = if f64Accepts v then some (.parsed v) else none) := by
  refine ⟨rfl, rfl, rfl, rfl, rfl, rfl, rfl, rfl, rfl, rfl, rfl, rfl, rfl, rfl, ?_⟩
  intro v hv
  simp only [specialFloatTokens, List.mem_cons, List.not_mem_nil, or_false, not_or] at hv
  obtain ⟨h1, h2, h3, h4, h5, h6, h7, h8, h9, h10, h11, h12⟩ := hv
  simp [parse_f64, h1, h2, h3, h4, h5, h6, h7, h8, h9, h10, h11, h12]

/-- C9 witness: the general fall-through clause applied to a plain
decimal literal not in the special-token list. -/
theorem c9_special_tokens_amended_witness :
    parse_f64 "1.5" = if f64Accepts "1.5" then some (.parsed "1.5") else none :=
  c9_special_tokens_amended.2.2.2.2.2.2.2.2.2.2.2.2.2.2 "1.5" (by decide)

/-- C3: indexing is total and never panics - a string index on a `Hash`
returns the entry for the String-typed key or the `BAD_VALUE` sentinel on
a miss; a positional index on an `Array` returns the element or the
sentinel when out of bounds; a positional index on a `Hash` looks up the
Integer-typed key; every other receiver shape gives the sentinel; and
chained indexing starting from the sentinel stays at the sentinel, so
arbitrarily long missing paths end in `BadValue`. -/
theorem c3_indexing_never_panics :
    (∀ (h : List HashEntry) (k : String) (it : HashItem),
        lhmGet h (.string k) = some it → Node.indexStr (.hash h) k = it.value)
  ∧ (∀ (h : List HashEntry) (k : String),
        lhmGet h (.string k) = none → Node.indexStr (.hash h) k = BAD_VALUE)
  ∧ (∀ (n : Node) (k : String), n.as_hash = none → Node.indexStr n k = BAD_VALUE)
  ∧ (∀ (a : List Yaml) (i : Nat) (y : Yaml), a.get? i = some y → Node.indexNat (.array a) i = y)
  ∧ (∀ (a : List Yaml) (i : Nat), a.length ≤ i → Node.indexNat (.array a) i = BAD_VALUE)
  ∧ (∀ (h : List HashEntry) (i : Nat) (it : HashItem),
        lhmGet h (.integer (usizeToI64 i)) = some it → Node.indexNat (.hash h) i = it.value)
  ∧ (∀ (h : List HashEntry) (i : Nat),
        lhmGet h (.integer (usizeToI64 i)) = none → Node.indexNat (.hash h) i = BAD_VALUE)
  ∧ (∀ (n : Node) (i : Nat), n.as_vec = none → n.as_hash = none → Node.indexNat n i = BAD_VALUE)
  ∧ (∀ ks : List PathKey, BAD_VALUE.indexPath ks = BAD_VALUE)
  ∧ (Yaml.mk none (.hash [.mk (.string "a") (.mk none (.mk none (.integer 1)))])).indexPath
      [.strK "missing", .natK 5, .strK "x"] = BAD_VALUE := by
  refine ⟨?_, ?_, ?_, ?_, ?_, ?_, ?_, ?_, ?_, rfl⟩
  · intro h k it hit; simp [Node.indexStr, Node.as_hash, hit]
  · intro h k hit; simp [Node.indexStr, Node.as_hash, hit]
  · intro n k hn; simp [Node.indexStr, hn]
  · intro a i y hy
    rw [List.get?_eq_getElem?] at hy
    simp [Node.indexNat, Node.as_vec, hy]
  · intro a i hi
    have hnone : a.get? i = none := List.get?_eq_none.mpr hi
    rw [List.get?_eq_getElem?] at hnone
    simp [Node.indexNat, Node.as_vec, hnone]
  · intro h i it hit; simp [Node.indexNat, Node.as_vec, Node.as_hash, hit]
  · intro h i hit; simp [Node.indexNat, Node.as_vec, Node.as_hash, hit]
  · intro n i h1 h2; simp [Node.indexNat, h1, h2]
  · intro ks
    induction ks with
    | nil => rfl
    | cons k ks ih =>
      have hstep : BAD_VALUE.indexKey k = BAD_VALUE := by
        cases k <;> rfl
      simpa [Yaml.indexPath, hstep] using ih

/-- C3 witness: the miss cases instantiated at a concrete one-entry map
and a concrete short sequence. -/
theorem c3_indexing_never_panics_witness :
    Node.indexStr (.hash [.mk (.string "a") (.mk none (.mk none (.integer 1)))]) "missing"
      = BAD_VALUE
  ∧ Node.indexNat (.array [.mk none (.integer 7)]) 5 = BAD_VALUE
  ∧ Node.indexNat (.integer 3) 0 = BAD_VALUE
  ∧ Node.indexStr (.hash [.mk (.string "a") (.mk none (.mk none (.integer 1)))]) "a"
      = .mk none (.integer 1) :=
  ⟨c3_indexing_never_panics.2.1 _ "missing" rfl,
   c3_indexing_never_panics.2.2.2.2.1 _ 5 (by decide),
   c3_indexing_never_panics.2.2.2.2.2.2.2.1 (.integer 3) 0 rfl rfl,
   c3_indexing_never_panics.1 [.mk (.string "a") (.mk none (.mk none (.integer 1)))] "a"
     (.mk none (.mk none (.integer 1))) rfl⟩

/-- C6: equality, ordering and hashing of the `Yaml` wrapper and of map
entries (`HashItem`) are determined solely by the wrapped payload `Node`:
identical payloads with different (or absent) markers are equal, compare
as `.eq`, and hash identically. -/
theorem c6_markers_never_affect :
    (∀ y1 y2 : Yaml, Yaml.eqB y1 y2 = nodeEq y1.node y2.node)
  ∧ (∀ y1 y2 : Yaml, Yaml.cmp y1 y2 = nodeCmp y1.node y2.node)
  ∧ (∀ (n : Node) (m1 m2 : Option Marker), Yaml.eqB (.mk m1 n) (.mk m2 n) = true)
  ∧ (∀ (n : Node) (m1 m2 : Option Marker), Yaml.cmp (.mk m1 n) (.mk m2 n) = .eq)
  ∧ (∀ (α : Type) (f : Node → α) (n : Node) (m1 m2 : Option Marker),
        Yaml.hashWith f (.mk m1 n) = Yaml.hashWith f (.mk m2 n))
  ∧ (∀ i1 i2 : HashItem, HashItem.eqB i1 i2 = Yaml.eqB i1.value i2.value)
  ∧ (∀ i1 i2 : HashItem, HashItem.cmp i1 i2 = Yaml.cmp i1.value i2.value)
  ∧ (∀ (v : Yaml) (km1 km2 : Option Marker), HashItem.eqB (.mk km1 v) (.mk km2 v) = true)
  ∧ (∀ (v : Yaml) (km1 km2 : Option Marker), HashItem.cmp (.mk km1 v) (.mk km2 v) = .eq)
  ∧ (∀ (α : Type) (f : Node → α) (v : Yaml) (km1 km2 : Option Marker),
        HashItem.hashWith f (.mk km1 v) = HashItem.hashWith f (.mk km2 v)) := by
  refine ⟨?_, ?_, ?_, ?_, ?_, ?_, ?_, ?_, ?_, ?_⟩
  · intro y1 y2; cases y1; cases y2; rfl
  · intro y1 y2; cases y1; cases y2; rfl
  · intro n m1 m2; simpa [Yaml.eqB] using nodeEq_refl n
  · intro n m1 m2; simpa [Yaml.cmp] using nodeCmp_refl n
  · intro α f n m1 m2; rfl
  · intro i1 i2; cases i1; cases i2; rfl
  · intro i1 i2; cases i1; cases i2; rfl
  · intro v km1 km2; simpa [HashItem.eqB] using yamlEqB_refl v
  · intro v km1 km2; simpa [HashItem.cmp] using yamlCmp_refl v
  · intro α f v km1 km2; rfl

/-- A default marker for concrete event streams. -/
def m0 : Marker := ⟨0, 0, 0⟩

/-- Event stream of the document `a1: &A { b1: 4 }` / `a2: *A` (anchor id
1 on the inner mapping, which starts at marker `(5,1,4)`). -/
def anchorEvents : List (Event × Marker) :=
  [ (.documentStart, m0),
    (.mappingStart 0, m0),
    (.scalar "a1" .plain 0 none, m0),
    (.mappingStart 1, ⟨5, 1, 4⟩),
    (.scalar "b1" .plain 0 none, m0),
    (.scalar "4" .plain 0 none, m0),
    (.mappingEnd, m0),
    (.scalar "a2" .plain 0 none, m0),
    (.alias 1, m0),
    (.mappingEnd, m0),
    (.documentEnd, m0) ]

/-- Event stream of the self-referential document
`a1: &A { b1: 4, b2: *A }`: the alias at marker `(7,3,8)` fires while the
anchored mapping is still open. -/
def selfRefEvents : List (Event × Marker) :=
  [ (.documentStart, m0),
    (.mappingStart 0, m0),
    (.scalar "a1" .plain 0 none, m0),
    (.mappingStart 1, m0),
    (.scalar "b1" .plain 0 none, m0),
    (.scalar "4" .plain 0 none, m0),
    (.scalar "b2" .plain 0 none, m0),
    (.alias 1, ⟨7, 3, 8⟩),
    (.mappingEnd, m0),
    (.mappingEnd, m0),
    (.documentEnd, m0) ]

set_option maxHeartbeats 4000000 in
/-- C4: an `Alias(id)` event inserts a value-clone of the anchored value
(with its original marker) when the id is in the anchor table, and an
`Invalid` carrying a fresh marker at the alias site when it is not; with
a self-referential anchor the alias fires before the anchor's container
has closed, so the alias site becomes `BadValue` and the build still
succeeds (the resulting value is a tree, not a cycle). -/
theorem c4_alias_lookup_or_badvalue :
    (∀ (st : LoaderState) (id : Nat) (mark : Marker) (y : Yaml),
        anchorGet st.anchor_map id = some y →
        YamlLoader.on_event st (.alias id) mark = YamlLoader.insert_new_node st (y, 0))
  ∧ (∀ (st : LoaderState) (id : Nat) (mark : Marker),
        anchorGet st.anchor_map id = none →
        YamlLoader.on_event st (.alias id) mark
          = YamlLoader.insert_new_node st (Yaml.mk (some mark) .badValue, 0))
  ∧ (loadDocs anchorEvents).map (fun docs =>
        ((docs.getD 0 BAD_VALUE).indexPath [.strK "a2", .strK "b1"]).node) = some (.integer 4)
  ∧ (loadDocs anchorEvents).map (fun docs =>
        ((docs.getD 0 BAD_VALUE).indexPath [.strK "a2"]).marker) = some (some ⟨5, 1, 4⟩)
  ∧ (loadDocs selfRefEvents).map (fun docs =>
        (docs.getD 0 BAD_VALUE).indexPath [.strK "a1", .strK "b2"])
      = some (.mk (some ⟨7, 3, 8⟩) .badValue) := by
  refine ⟨?_, ?_, rfl, rfl, rfl⟩
  · intro st id mark y h
    simp [YamlLoader.on_event, h]
  · intro st id mark h
    simp [YamlLoader.on_event, h]

/-- C4 witness: both alias branches applied at concrete loader states. -/
theorem c4_alias_lookup_or_badvalue_witness :
    YamlLoader.on_event ⟨[], [], [], [(1, Yaml.mk (some ⟨9, 9, 9⟩) .null)]⟩ (.alias 1) m0
      = YamlLoader.insert_new_node ⟨[], [], [], [(1, Yaml.mk (some ⟨9, 9, 9⟩) .null)]⟩
          (Yaml.mk (some ⟨9, 9, 9⟩) .null, 0)
  ∧ YamlLoader.on_event ⟨[], [], [], []⟩ (.alias 1) m0
      = YamlLoader.insert_new_node ⟨[], [], [], []⟩ (Yaml.mk (some m0) .badValue, 0) :=
  ⟨c4_alias_lookup_or_badvalue.1 ⟨[], [], [], [(1, Yaml.mk (some ⟨9, 9, 9⟩) .null)]⟩ 1 m0
      (Yaml.mk (some ⟨9, 9, 9⟩) .null) rfl,
   c4_alias_lookup_or_badvalue.2.1 ⟨[], [], [], []⟩ 1 m0 rfl⟩

/-- Event stream of a mapping whose keys arrive in the order `b`, `a`,
`c`. -/
def bacEvents : List (Event × Marker) :=
  [ (.documentStart, m0),
    (.mappingStart 0, m0),
    (.scalar "b" .plain 0 none, m0),
    (.scalar "~" .plain 0 none, m0),
    (.scalar "a" .plain 0 none, m0),
    (.scalar "~" .plain 0 none, m0),
    (.scalar "c" .plain 0 none, m0),
    (.scalar "~" .plain 0 none, m0),
    (.mappingEnd, m0),
    (.documentEnd, m0) ]

/-- Event stream of a mapping that produces the same key `k` twice, first
with value `1` (marker `(1,1,1)`) and then with value `2` (marker
`(9,3,3)`). -/
def dupKeyEvents : List (Event × Marker) :=
  [ (.documentStart, m0),
    (.mappingStart 0, m0),
    (.scalar "k" .plain 0 none, m0),
    (.scalar "1" .plain 0 none, ⟨1, 1, 1⟩),
    (.scalar "k" .plain 0 none, m0),
    (.scalar "2" .plain 0 none, ⟨9, 3, 3⟩),
    (.mappingEnd, m0),
    (.documentEnd, m0) ]

/-- Keys of a map are pairwise distinct under `Node`'s equality. -/
def keysPairwiseDistinct (es : List HashEntry) : Prop :=
  es.Pairwise (fun e1 e2 => nodeEq e1.key e2.key = false)

set_option maxHeartbeats 2000000 in
/-- C7 counterexample: when the event stream produces the key `k` twice
in one mapping, the finished map holds exactly one entry for `k` and that
entry is precisely the second writer's value (`Integer 2` with the second
value's marker) - so the duplicate-key policy is last-write-wins, contrary
to the claim. -/
theorem c7_dup_key_counterexample :
    loadDocs dupKeyEvents
      = some [Yaml.mk (some m0)
          (.hash [.mk (.string "k") (.mk none (Yaml.mk (some ⟨9, 3, 3⟩) (.integer 2)))])] := rfl

set_option maxHeartbeats 2000000 in
/-- C7 (amended): within one map keys stay pairwise distinct and a fresh
key is appended at the back, so iteration follows first-insertion order
(never sorted order) while all keys are distinct; the duplicate-key
policy, however, is last-write-wins - re-inserting an existing key
replaces the entry's value with the new one (keeping the originally
stored key and moving the entry to the most recent position). -/
theorem c7_insertion_order_amended :
    (∀ (es : List HashEntry) (k : Node) (item : HashItem),
        es.any (fun e => nodeEq e.key k) = false → lhmInsert es k item = es ++ [.mk k item])
  ∧ (∀ (es : List HashEntry) (k : Node) (item : HashItem) (e0 : HashEntry),
        es.find? (fun e => nodeEq e.key k) = some e0 →
        lhmInsert es k item = es.filter (fun e => !nodeEq e.key k) ++ [.mk e0.key item])
  ∧ (∀ (es : List HashEntry) (k : Node) (item : HashItem),
        keysPairwiseDistinct es → keysPairwiseDistinct (lhmInsert es k item))
  ∧ (loadDocs bacEvents).map (fun docs =>
        ((docs.getD 0 BAD_VALUE).node.as_hash).map (List.map HashEntry.key))
      = some (some [.string "b", .string "a", .string "c"])
  ∧ loadDocs dupKeyEvents
      = some [Yaml.mk (some m0)
          (.hash [.mk (.string "k") (.mk none (Yaml.mk (some ⟨9, 3, 3⟩) (.integer 2)))])] := by
  refine ⟨?_, ?_, ?_, rfl, rfl⟩
  · intro es k item h
    have hf : es.find? (fun e => nodeEq e.key k) = none := by
      rw [List.find?_eq_none]
      intro e he
      have := List.any_eq_false.mp h e he
      simpa using this
    simp [lhmInsert, hf]
  · intro es k item e0 h
    simp [lhmInsert, h]
  · intro es k item hd
    unfold keysPairwiseDistinct at hd ⊢
    unfold lhmInsert
    cases hf : es.find? (fun e => nodeEq e.key k) with
    | none =>
      have hall : ∀ e ∈ es, nodeEq e.key k = false := by
        intro e he
        have := List.find?_eq_none.mp hf e he
        simpa using this
      refine List.pairwise_append.mpr ⟨hd, List.pairwise_singleton _ _, ?_⟩
      intro a ha b hb
      simp only [List.mem_singleton] at hb
      subst hb
      simpa using hall a ha
    | some e0 =>
      have hk0 : nodeEq e0.key k = true := by
        have := List.find?_some hf
        simpa using this
      have hfil : ∀ e ∈ es.filter (fun e => !nodeEq e.key k), nodeEq e.key k = false := by
        intro e he
        have := (List.mem_filter.mp he).2
        simpa using this
      refine List.pairwise_append.mpr
        ⟨List.Pairwise.sublist (List.filter_sublist es) hd, List.pairwise_singleton _ _, ?_⟩
      intro a ha b hb
      simp only [List.mem_singleton] at hb
      subst hb
      simp only [HashEntry.key_mk]
      cases hae : nodeEq a.key e0.key with
      | false => rfl
      | true =>
        have htr : nodeEq a.key k = true := nodeEq_trans _ _ _ hae hk0
        rw [hfil a ha] at htr
        simp at htr

/-- C7 witness: the three general clauses instantiated at concrete maps. -/
theorem c7_insertion_order_amended_witness :
    lhmInsert [] (Node.string "k") (.mk none (Yaml.mk none (.integer 1)))
      = [HashEntry.mk (.string "k") (.mk none (Yaml.mk none (.integer 1)))]
  ∧ lhmInsert [HashEntry.mk (.string "k") (.mk none (Yaml.mk none (.integer 1)))]
        (Node.string "k") (.mk none (Yaml.mk none (.integer 2)))
      = [HashEntry.mk (.string "k") (.mk none (Yaml.mk none (.integer 2)))]
  ∧ keysPairwiseDistinct
      (lhmInsert [] (Node.string "k") (.mk none (Yaml.mk none (.integer 1)))) :=
  ⟨by
    have h := c7_insertion_order_amended.1 [] (Node.string "k")
      (.mk none (Yaml.mk none (.integer 1))) rfl
    simpa using h,
   by
    have h := c7_insertion_order_amended.2.1
      [HashEntry.mk (.string "k") (.mk none (Yaml.mk none (.integer 1)))]
      (Node.string "k") (.mk none (Yaml.mk none (.integer 2)))
      (HashEntry.mk (.string "k") (.mk none (Yaml.mk none (.integer 1)))) rfl
    simpa using h,
   c7_insertion_order_amended.2.2.1 [] (Node.string "k")
      (.mk none (Yaml.mk none (.integer 1))) List.Pairwise.nil⟩

/-- Event stream of the one-pair document `b: ~` in which the key scalar
`b` carries the marker `(2,1,0)` and the value scalar carries `(5,1,3)`. -/
def keyMarkedEvents : List (Event × Marker) :=
  [ (.documentStart, m0),
    (.mappingStart 0, ⟨0, 1, 0⟩),
    (.scalar "b" .plain 0 none, ⟨2, 1, 0⟩),
    (.scalar "~" .plain 0 none, ⟨5, 1, 3⟩),
    (.mappingEnd, ⟨6, 2, 0⟩),
    (.documentEnd, ⟨6, 2, 0⟩) ]

set_option maxHeartbeats 2000000 in
/-- C8: evaluating the builder at a mapping whose key scalar carries the
marker `(2,1,0)` shows that the inserted entry's `key_marker` field is
`none` - `insert_new_node` hard-codes `key_marker: None` and discards the
captured key's marker, although the field exists precisely to record it. -/
theorem c8_key_marker_is_dropped :
    loadDocs keyMarkedEvents
      = some [Yaml.mk (some ⟨0, 1, 0⟩)
          (.hash [.mk (.string "b") (.mk none (Yaml.mk (some ⟨5, 1, 3⟩) .null))])] := rfl

/-- Event stream of a mapping that ends while its pending-key slot still
holds a captured key: `a: 1` followed by the dangling key `dangling`. -/
def danglingKeyEvents : List (Event × Marker) :=
  [ (.documentStart, m0),
    (.mappingStart 0, m0),
    (.scalar "a" .plain 0 none, m0),
    (.scalar "1" .plain 0 none, m0),
    (.scalar "dangling" .plain 0 none, m0),
    (.mappingEnd, m0),
    (.documentEnd, m0) ]

set_option maxHeartbeats 2000000 in
/-- C10: a `MappingEnd` event pops the pending-key slot without ever
inspecting it - the transition's result is the same whatever captured key
sits in the slot - and a mapping that closes after an odd number of
insertions keeps only its fully paired entries, with no `Invalid` entry
for the dangling key and no error. -/
theorem c10_dangling_key_discarded :
    (∀ (docs : List Yaml) (ds : List (Yaml × Nat)) (k : Yaml) (ks : List Yaml)
        (am : List (Nat × Yaml)) (mark : Marker),
        YamlLoader.on_event ⟨docs, ds, k :: ks, am⟩ .mappingEnd mark
          = YamlLoader.on_event ⟨docs, ds, Yaml.mk none .badValue :: ks, am⟩ .mappingEnd mark)
  ∧ loadDocs danglingKeyEvents
      = some [Yaml.mk (some m0)
          (.hash [.mk (.string "a") (.mk none (Yaml.mk (some m0) (.integer 1)))])] := by
  refine ⟨?_, rfl⟩
  intro docs ds k ks am mark
  rfl

/-- C1 witness: the refinement clause and the never-`BadValue` clause
applied at concrete scalars. -/
theorem c1_plain_priority_order_witness :
    Node.from_str "0xFF" = resolvePriority "0xFF"
  ∧ Node.from_str "anything" ≠ .badValue :=
  ⟨c1_plain_priority_order.1 "0xFF", c1_plain_priority_order.2.1 "anything"⟩
